import Mathlib

set_option linter.unusedVariables false

/-!
Verification of the LTC (Linear Timecode) decoding core of the video-tools
repository, comprising `read-timecode.ts` (audio decode path) and
`sync-ltc-timecode.ts` (ltcdump text path).

Machine integers are modelled as `Nat`/`Int`; JavaScript floating-point
arithmetic on the adaptive bit-period estimate is modelled exactly over `ℚ`.
Arrays become `List`s; `arr.slice(a, b)` becomes `jsSlice`.
-/

/-- Models `Array.prototype.slice(a, b)` on an in-range request. -/
def jsSlice (l : List ℕ) (a b : ℕ) : List ℕ :=
  (l.drop a).take (b - a)

/-- The 16-bit LTC sync word `0x3FFD`, bits 64..79 of a frame
(`syncPattern` / `expectedSync` in read-timecode.ts lines 182 and 321). -/
def syncPattern : List ℕ := [0, 0, 1, 1, 1, 1, 1, 1, 1, 1, 1, 1, 1, 1, 0, 1]

/-- Number of positions at which a candidate sync region agrees with
`syncPattern`; models `candidateSync.filter((bit, idx) => bit === syncPattern[idx]).length`
(read-timecode.ts lines 191-193 and 322-324). -/
def syncMatchCount (cand : List ℕ) : ℕ :=
  ((cand.zip syncPattern).filter fun p => p.1 == p.2).length

/-- Decoded LTC frame (interface `LTCFrame` of read-timecode.ts lines 64-79). -/
structure LTCFrame where
  frame : ℕ
  second : ℕ
  minute : ℕ
  hour : ℕ
  dropFrame : Bool
  colorFrame : Bool
  binaryGroup1 : ℕ
  binaryGroup2 : ℕ
  binaryGroup3 : ℕ
  binaryGroup4 : ℕ
  binaryGroup5 : ℕ
  binaryGroup6 : ℕ
  binaryGroup7 : ℕ
  binaryGroup8 : ℕ
deriving Repr, DecidableEq

/-- `parseLTCFrame` of read-timecode.ts lines 296-430: decode the BCD
fields, flags and user-bit groups of an 80-bit sequence, rejecting inputs
shorter than 80 bits and frames whose sync region matches the sync word in
fewer than 14 of 16 positions. -/
def parseLTCFrame (bits : List ℕ) : Option LTCFrame :=
  if bits.length < 80 then none else
  let frame_units := bits.getD 3 0 <<< 3 ||| bits.getD 2 0 <<< 2 ||| bits.getD 1 0 <<< 1 ||| bits.getD 0 0
  let frame_tens := bits.getD 9 0 <<< 1 ||| bits.getD 8 0
  let second_units := bits.getD 19 0 <<< 3 ||| bits.getD 18 0 <<< 2 ||| bits.getD 17 0 <<< 1 ||| bits.getD 16 0
  let second_tens := bits.getD 26 0 <<< 2 ||| bits.getD 25 0 <<< 1 ||| bits.getD 24 0
  let minute_units := bits.getD 35 0 <<< 3 ||| bits.getD 34 0 <<< 2 ||| bits.getD 33 0 <<< 1 ||| bits.getD 32 0
  let minute_tens := bits.getD 42 0 <<< 2 ||| bits.getD 41 0 <<< 1 ||| bits.getD 40 0
  let hour_units := bits.getD 51 0 <<< 3 ||| bits.getD 50 0 <<< 2 ||| bits.getD 49 0 <<< 1 ||| bits.getD 48 0
  let hour_tens := bits.getD 57 0 <<< 1 ||| bits.getD 56 0
  let syncWord := jsSlice bits 64 80
  let syncMatches := syncMatchCount syncWord
  if syncMatches < 14 then none else
  let binaryGroup1 := bits.getD 7 0 <<< 3 ||| bits.getD 6 0 <<< 2 ||| bits.getD 5 0 <<< 1 ||| bits.getD 4 0
  let binaryGroup2 := bits.getD 15 0 <<< 3 ||| bits.getD 14 0 <<< 2 ||| bits.getD 13 0 <<< 1 ||| bits.getD 12 0
  let binaryGroup3 := bits.getD 23 0 <<< 3 ||| bits.getD 22 0 <<< 2 ||| bits.getD 21 0 <<< 1 ||| bits.getD 20 0
  let binaryGroup4 := bits.getD 31 0 <<< 3 ||| bits.getD 30 0 <<< 2 ||| bits.getD 29 0 <<< 1 ||| bits.getD 28 0
  let binaryGroup5 := bits.getD 39 0 <<< 3 ||| bits.getD 38 0 <<< 2 ||| bits.getD 37 0 <<< 1 ||| bits.getD 36 0
  let binaryGroup6 := bits.getD 47 0 <<< 3 ||| bits.getD 46 0 <<< 2 ||| bits.getD 45 0 <<< 1 ||| bits.getD 44 0
  let binaryGroup7 := bits.getD 55 0 <<< 3 ||| bits.getD 54 0 <<< 2 ||| bits.getD 53 0 <<< 1 ||| bits.getD 52 0
  let binaryGroup8 := bits.getD 63 0 <<< 3 ||| bits.getD 62 0 <<< 2 ||| bits.getD 61 0 <<< 1 ||| bits.getD 60 0
  some
    { frame := frame_tens * 10 + frame_units
      second := second_tens * 10 + second_units
      minute := minute_tens * 10 + minute_units
      hour := hour_tens * 10 + hour_units
      dropFrame := bits.getD 10 0 == 1
      colorFrame := bits.getD 11 0 == 1
      binaryGroup1 := binaryGroup1
      binaryGroup2 := binaryGroup2
      binaryGroup3 := binaryGroup3
      binaryGroup4 := binaryGroup4
      binaryGroup5 := binaryGroup5
      binaryGroup6 := binaryGroup6
      binaryGroup7 := binaryGroup7
      binaryGroup8 := binaryGroup8 }

/-- Bit `i` of `n`, as the number 0 or 1. -/
def bitAt (n i : ℕ) : ℕ := n >>> i &&& 1

/-- 0/1 encoding of a boolean flag bit. -/
def flagBit (b : Bool) : ℕ := if b then 1 else 0

/-- Value recovered from a 4-bit LSB-first nibble the way `parseLTCFrame`
combines it. -/
def nibble4 (n : ℕ) : ℕ :=
  bitAt n 3 <<< 3 ||| bitAt n 2 <<< 2 ||| bitAt n 1 <<< 1 ||| bitAt n 0

/-- Value recovered from a 3-bit LSB-first group. -/
def nibble3 (n : ℕ) : ℕ := bitAt n 2 <<< 2 ||| bitAt n 1 <<< 1 ||| bitAt n 0

/-- Value recovered from a 2-bit LSB-first group. -/
def nibble2 (n : ℕ) : ℕ := bitAt n 1 <<< 1 ||| bitAt n 0

/-- Test-harness encoder: the 80-bit LTC frame holding the given BCD digits
(units/tens), flags and user-bit groups in the standard layout, with the
sync word at bits 64-79 and the unused flag bits 27, 43, 58, 59 clear. -/
def mkLTCBits (fu ft su st mu mt hu ht : ℕ) (df cf : Bool)
    (g1 g2 g3 g4 g5 g6 g7 g8 : ℕ) : List ℕ :=
  [bitAt fu 0, bitAt fu 1, bitAt fu 2, bitAt fu 3,
   bitAt g1 0, bitAt g1 1, bitAt g1 2, bitAt g1 3,
   bitAt ft 0, bitAt ft 1, flagBit df, flagBit cf,
   bitAt g2 0, bitAt g2 1, bitAt g2 2, bitAt g2 3,
   bitAt su 0, bitAt su 1, bitAt su 2, bitAt su 3,
   bitAt g3 0, bitAt g3 1, bitAt g3 2, bitAt g3 3,
   bitAt st 0, bitAt st 1, bitAt st 2, 0,
   bitAt g4 0, bitAt g4 1, bitAt g4 2, bitAt g4 3,
   bitAt mu 0, bitAt mu 1, bitAt mu 2, bitAt mu 3,
   bitAt g5 0, bitAt g5 1, bitAt g5 2, bitAt g5 3,
   bitAt mt 0, bitAt mt 1, bitAt mt 2, 0,
   bitAt g6 0, bitAt g6 1, bitAt g6 2, bitAt g6 3,
   bitAt hu 0, bitAt hu 1, bitAt hu 2, bitAt hu 3,
   bitAt g7 0, bitAt g7 1, bitAt g7 2, bitAt g7 3,
   bitAt ht 0, bitAt ht 1, 0, 0,
   bitAt g8 0, bitAt g8 1, bitAt g8 2, bitAt g8 3,
   0, 0, 1, 1, 1, 1, 1, 1, 1, 1, 1, 1, 1, 1, 0, 1]

/-- Local state of the state-change Manchester decoding loops
(read-timecode.ts lines 132-136 and 228-232): current polarity, adaptive
samples-per-bit estimate, samples since the last polarity change, the
pending-half-bit flag and the bits recovered so far. -/
structure DState where
  currentState : Bool
  samplesPerBit : ℚ
  samplesSinceChange : ℕ
  pendingBit : Bool
  bits : List ℕ
deriving Repr

/-- One iteration of the state-change decoding loop body (read-timecode.ts
lines 139-171, identically 235-271 up to the smoothing constants
`wOld`/`wNew`, which are 0.99/0.01 in the free scan and 0.95/0.05 in the
position-anchored decode): increment the interval counter and, on a
polarity change, classify the elapsed interval against 1.5 times the half-
and full-bit periods. -/
def manchesterSample (wOld wNew : ℚ) (s : DState) (d : Bool) : DState :=
  let since := s.samplesSinceChange + 1
  if d = s.currentState then { s with samplesSinceChange := since }
  else
    let halfBitPeriod := s.samplesPerBit * (1/2)
    let fullBitPeriod := s.samplesPerBit
    if (since : ℚ) < halfBitPeriod * (3/2) then
      if s.pendingBit then
        { s with currentState := d, samplesSinceChange := 0,
                 bits := s.bits ++ [1], pendingBit := false }
      else
        { s with currentState := d, samplesSinceChange := 0, pendingBit := true }
    else if (since : ℚ) < fullBitPeriod * (3/2) then
      { s with currentState := d, samplesSinceChange := 0,
               bits := (if s.pendingBit then s.bits ++ [1] else s.bits) ++ [0],
               pendingBit := false,
               samplesPerBit := s.samplesPerBit * wOld + (since : ℚ) * wNew }
    else
      if s.pendingBit then
        { s with currentState := d, samplesSinceChange := 0,
                 bits := s.bits ++ [1], pendingBit := false }
      else
        { s with currentState := d, samplesSinceChange := 0 }

/-- The decoding loop itself: process samples in order while the recovered
bit count is below the budget (1000 in the free scan of lines 139-171, 80
in the anchored decode of lines 235-271). -/
def manchesterLoop (wOld wNew : ℚ) (budget : ℕ) : List Bool → DState → DState
  | [], s => s
  | d :: rest, s =>
    if s.bits.length < budget then
      manchesterLoop wOld wNew budget rest (manchesterSample wOld wNew s d)
    else s

/-- Initial decoder state (read-timecode.ts lines 127-136): polarity of
sample 0, samples-per-bit seeded from `sampleRate / 2400`. -/
def initDState (digital : List Bool) (sampleRate : ℕ) : DState :=
  { currentState := digital.headD false
    samplesPerBit := (sampleRate : ℚ) / 2400
    samplesSinceChange := 0
    pendingBit := false
    bits := [] }

/-- Bit-recovery phase of `detectManchesterBits` (read-timecode.ts lines
123-175): free scan with smoothing constants 0.99/0.01 and bit budget
1000, followed by an unconditional flush of a trailing pending half-bit as
a "1". -/
def recoverBitsFree (digital : List Bool) (sampleRate : ℕ) : List ℕ :=
  let s := manchesterLoop (99/100) (1/100) 1000 digital.tail (initDState digital sampleRate)
  if s.pendingBit then s.bits ++ [1] else s.bits

/-- `detectManchesterBitsFromPosition` (read-timecode.ts lines 218-293):
anchored decode with smoothing constants 0.95/0.05 and bit budget 80; a
trailing pending half-bit is flushed only while under the budget, and the
result is `bits.slice(0, 80)`. -/
def detectManchesterBitsFromPosition (digital : List Bool) (sampleRate : ℕ) : List ℕ :=
  let s := manchesterLoop (95/100) (5/100) 80 digital.tail (initDState digital sampleRate)
  let bits := if s.pendingBit ∧ s.bits.length < 80 then s.bits ++ [1] else s.bits
  bits.take 80

/-- Sync-word search of `detectManchesterBits` (read-timecode.ts lines
182-211): scan candidate offsets in increasing order; at each offset whose
80-bit window fits, accept the window when its last 16 bits match the sync
word in at least 15 of 16 positions. -/
def findSyncFrame (bits : List ℕ) (i : ℕ) : Option (ℕ × List ℕ) :=
  if i + 80 ≤ bits.length then
    if 15 ≤ syncMatchCount (jsSlice (jsSlice bits i (i + 80)) 64 80) then
      some (i, jsSlice bits i (i + 80))
    else findSyncFrame bits (i + 1)
  else none
termination_by bits.length - i
decreasing_by simp_wf; omega

/-- `detectManchesterBits` (read-timecode.ts lines 123-215): bit recovery
followed by the sync scan; the first matching 80-bit window is returned,
or the empty list when no offset qualifies. -/
def detectManchesterBits (digital : List Bool) (sampleRate : ℕ) : List ℕ :=
  match findSyncFrame (recoverBitsFree digital sampleRate) 0 with
  | some (_, w) => w
  | none => []

/-- Number of positions at which a candidate sync region disagrees with
`syncPattern` (the number of corrupted sync bits). -/
def syncMismatchCount (cand : List ℕ) : ℕ :=
  ((cand.zip syncPattern).filter fun p => !(p.1 == p.2)).length

/-- A polarity trace of `n` samples, each of polarity opposite to its
predecessor, starting opposite to `c`. -/
def flips : ℕ → Bool → List Bool
  | 0, _ => []
  | n + 1, c => (!c) :: flips n (!c)

/-- A polarity trace at 4800 Hz (2 samples per channel bit): 1998
alternating samples recover 999 "1" bits, one further flip leaves a
pending half-bit at 999 recovered bits, and a final full-bit interval then
emits both the pending "1" and a "0", producing 1001 bits. -/
def cexTrace : List Bool := true :: (flips 1998 true ++ [false, false, true])

/-- `buffer.readUInt8`-style byte access into the sample buffer. -/
def readUInt8 (buf : List ℕ) (off : ℕ) : ℕ := buf.getD off 0

/-- Signed value of one byte (`buffer.readInt8`). -/
def readInt8 (buf : List ℕ) (off : ℕ) : ℤ :=
  let b := readUInt8 buf off
  if b < 128 then (b : ℤ) else (b : ℤ) - 256

/-- Signed little-endian 16-bit read (`buffer.readInt16LE`). -/
def readInt16LE (buf : List ℕ) (off : ℕ) : ℤ :=
  let v := readUInt8 buf off + 256 * readUInt8 buf (off + 1)
  if v < 32768 then (v : ℤ) else (v : ℤ) - 65536

/-- Exact value of an IEEE-754 single read little-endian
(`buffer.readFloatLE`): finite values as exact rationals, with the
infinities and NaN distinguished. -/
inductive F32Val where
  | finite (q : ℚ)
  | posInf
  | negInf
  | nan

/-- Decode the 4 bytes at `off` as an IEEE-754 single (little-endian). -/
def readFloatLE (buf : List ℕ) (off : ℕ) : F32Val :=
  let w : ℕ := readUInt8 buf off + 256 * readUInt8 buf (off + 1) +
    65536 * readUInt8 buf (off + 2) + 16777216 * readUInt8 buf (off + 3)
  let sign : ℕ := w / 2 ^ 31
  let ex : ℕ := w / 2 ^ 23 % 256
  let man : ℕ := w % 2 ^ 23
  if ex = 255 then
    if man = 0 then (if sign = 0 then F32Val.posInf else F32Val.negInf) else F32Val.nan
  else
    let mag : ℚ := if ex = 0 then (man : ℚ) / 2 ^ 149 else ((2 ^ 23 + man : ℕ) : ℚ) * 2 ^ ((ex : ℤ) - 150)
    F32Val.finite (if sign = 0 then mag else -mag)

/-- JavaScript `sample > 0` on a float value (NaN and -Infinity compare
false, +Infinity true). -/
def f32GtZero : F32Val → Bool
  | F32Val.finite q => decide (0 < q)
  | F32Val.posInf => true
  | F32Val.negInf => false
  | F32Val.nan => false

/-- The per-sample decode-and-threshold of `audioToDigital`
(read-timecode.ts lines 103-117): 32-bit reads a float, 16-bit a signed
16-bit integer, and every other depth falls into the signed 8-bit read;
the pushed value is `sample > threshold` with `threshold = 0`. -/
def sampleGtZero (buf : List ℕ) (bitsPerSample off : ℕ) : Bool :=
  if bitsPerSample = 32 then f32GtZero (readFloatLE buf off)
  else if bitsPerSample = 16 then decide (0 < readInt16LE buf off)
  else decide (0 < readInt8 buf off)

/-- `audioToDigital` (read-timecode.ts lines 82-120): polarity trace over
`min(availableSamples, maxSamples)` samples. `bitsPerSample / 8` is
integer division here, which coincides with the source for the byte-aligned
depths the tool is used with. -/
def audioToDigital (buf : List ℕ) (dataOffset sampleRate bitsPerSample maxSamples : ℕ) : List Bool :=
  let bytesPerSample := bitsPerSample / 8
  let availableSamples := (buf.length - dataOffset) / bytesPerSample
  let numSamples := min availableSamples maxSamples
  (List.range numSamples).map fun i => sampleGtZero buf bitsPerSample (dataOffset + i * bytesPerSample)

/-- The spec's error taxonomy for the Digitizer (spec sections 4.1 and 7). -/
inductive FormatError where
  | unsupportedBitDepth
deriving DecidableEq

/-- Modelled from the spec: section 4.1's Digitizer contract, which "fails
with FormatError if bit depth is unsupported" (the supported encodings
being 8, 16 and 32-float). This definition follows the spec's words, not
the source, and exists to be compared with `audioToDigital`. -/
def audioToDigitalSpec (buf : List ℕ) (dataOffset sampleRate bitsPerSample maxSamples : ℕ) :
    Except FormatError (List Bool) :=
  if bitsPerSample = 8 ∨ bitsPerSample = 16 ∨ bitsPerSample = 32 then
    Except.ok (audioToDigital buf dataOffset sampleRate bitsPerSample maxSamples)
  else Except.error FormatError.unsupportedBitDepth

/-- Decimal digit expansion helper (most significant first); `fuel`-driven
so it evaluates by kernel reduction. -/
def decDigitsAux : ℕ → ℕ → List ℕ
  | 0, _ => []
  | _ + 1, 0 => []
  | fuel + 1, n => decDigitsAux fuel (n / 10) ++ [n % 10]

/-- Digits of the decimal representation of `n`, as printed by template
literal interpolation of a number. -/
def decRepr (n : ℕ) : List ℕ := if n = 0 then [0] else decDigitsAux n n

/-- The user-bits string of `displayLTCFrame` (read-timecode.ts line 530):
groups 8 down to 1 concatenated in decimal, modelled as a digit list. -/
def userBitsDigits (f : LTCFrame) : List ℕ :=
  decRepr f.binaryGroup8 ++ decRepr f.binaryGroup7 ++ decRepr f.binaryGroup6 ++
    decRepr f.binaryGroup5 ++ decRepr f.binaryGroup4 ++ decRepr f.binaryGroup3 ++
    decRepr f.binaryGroup2 ++ decRepr f.binaryGroup1

/-- `parseInt(s.substring(i, i + 2))` on a digit string. -/
def twoDigit (l : List ℕ) (i : ℕ) : ℕ := 10 * l.getD i 0 + l.getD (i + 1) 0

/-- The date displayed by `displayLTCFrame` (read-timecode.ts lines
533-563): parse the user-bits digits as YYMMDDXX, require a length-8
string and an in-range month and day, and expand the two-digit year with
the century heuristic `year < 50 ? 2000 + year : 1900 + year`. -/
def displayedDate (f : LTCFrame) : Option (ℕ × ℕ × ℕ) :=
  let s := userBitsDigits f
  if s.length = 8 then
    let year := twoDigit s 0
    let month := twoDigit s 2
    let day := twoDigit s 4
    if 1 ≤ month ∧ month ≤ 12 ∧ 1 ≤ day ∧ day ≤ 31 then
      some (if year < 50 then 2000 + year else 1900 + year, month, day)
    else none
  else none

/-- Numeric fields of the `LTCFrame` interface of sync-ltc-timecode.ts
lines 8-20 (the `userBits`, `timecode` and `position` strings are elided). -/
structure SyncLTCFrame where
  year : ℕ
  month : ℕ
  day : ℕ
  hour : ℕ
  minute : ℕ
  second : ℕ
  frame : ℕ
  dropFrame : Bool
deriving Repr, DecidableEq

/-- The corrections reported via `console.warn` by `parseLTCFrame` of
sync-ltc-timecode.ts (lines 242-287). -/
inductive TCCorrection where
  | invalidDate
  | invalidHour
  | invalidMinute
  | invalidSecond
deriving DecidableEq, Repr

/-- Validation and correction logic of `parseLTCFrame` in
sync-ltc-timecode.ts lines 236-300, with the regex/substring extraction
elided: `yy`, `mon`, `day` are the numeric values parsed from the
user-bits string (the year as `parseInt("20" + YY) = 2000 + yy`), `h m s
fr` from the timecode match and `df` from its separator; `nowY nowM nowD`
is the wall-clock date `new Date()` would supply. -/
def parseLTCFrameFields (yy mon day h m s fr : ℕ) (df : Bool) (nowY nowM nowD : ℕ) :
    SyncLTCFrame × List TCCorrection :=
  let dateOK := 1 ≤ mon ∧ mon ≤ 12 ∧ 1 ≤ day ∧ day ≤ 31
  let yr := if dateOK then 2000 + yy else nowY
  let mo := if dateOK then mon else nowM
  let dy := if dateOK then day else nowD
  let hr := if 24 ≤ h then h % 24 else h
  let warns :=
    (if dateOK then [] else [TCCorrection.invalidDate]) ++
    (if 24 ≤ h then [TCCorrection.invalidHour] else []) ++
    (if 60 ≤ m then [TCCorrection.invalidMinute] else []) ++
    (if 60 ≤ s then [TCCorrection.invalidSecond] else [])
  (⟨yr, mo, dy, hr, m, s, fr, df⟩, warns)

/-- `Math.round` on the nonnegative rationals arising here (JavaScript
rounds half toward positive infinity). -/
def jsRound (q : ℚ) : ℤ := ⌊q + 1/2⌋

/-- `calculateTimeReference` (sync-ltc-timecode.ts lines 322-334): frame
rate 29.97 when drop-frame else 30, `totalFrames` from the timecode
fields, and the result `Math.round(totalFrames * 48000 / frameRate)`. -/
def calculateTimeReference (f : SyncLTCFrame) : ℤ :=
  let frameRate : ℚ := if f.dropFrame then 2997/100 else 30
  let totalFrames : ℚ :=
    ((f.hour : ℚ) * 3600 + (f.minute : ℚ) * 60 + (f.second : ℚ)) * frameRate + (f.frame : ℚ)
  jsRound (totalFrames * 48000 / frameRate)

theorem nibble4_eq : ∀ n < 16, nibble4 n = n := by decide

theorem nibble3_eq : ∀ n < 8, nibble3 n = n := by decide

theorem nibble2_eq : ∀ n < 4, nibble2 n = n := by decide

theorem flagBit_beq (b : Bool) : (flagBit b == 1) = b := by cases b <;> rfl

/-- C10: the frame parser returns no frame for every bit sequence shorter
than 80 bits. -/
theorem parseLTCFrame_short (bits : List ℕ) (h : bits.length < 80) :
    parseLTCFrame bits = none := by
  unfold parseLTCFrame
  simp [h]

/-- C10 witness: the parser rejects the empty bit sequence. -/
theorem parseLTCFrame_short_witness : parseLTCFrame [] = none :=
  parseLTCFrame_short [] (by decide)

/-- C2: decoding an 80-bit frame constructed from known BCD digits, flags
and user-bit groups (with a correct sync word) recovers exactly the
constructed values: each two-digit field as tens*10 + units read LSB-first
from its bit range, dropFrame from bit 10, colorFrame from bit 11, and the
eight user-bit groups from their nibbles. -/
theorem parseLTCFrame_mkLTCBits (fu ft su st mu mt hu ht : ℕ) (df cf : Bool)
    (g1 g2 g3 g4 g5 g6 g7 g8 : ℕ)
    (hfu : fu < 16) (hft : ft < 4) (hsu : su < 16) (hst : st < 8)
    (hmu : mu < 16) (hmt : mt < 8) (hhu : hu < 16) (hht : ht < 4)
    (h1 : g1 < 16) (h2 : g2 < 16) (h3 : g3 < 16) (h4 : g4 < 16)
    (h5 : g5 < 16) (h6 : g6 < 16) (h7 : g7 < 16) (h8 : g8 < 16) :
    parseLTCFrame (mkLTCBits fu ft su st mu mt hu ht df cf g1 g2 g3 g4 g5 g6 g7 g8) =
      some
        { frame := ft * 10 + fu
          second := st * 10 + su
          minute := mt * 10 + mu
          hour := ht * 10 + hu
          dropFrame := df
          colorFrame := cf
          binaryGroup1 := g1
          binaryGroup2 := g2
          binaryGroup3 := g3
          binaryGroup4 := g4
          binaryGroup5 := g5
          binaryGroup6 := g6
          binaryGroup7 := g7
          binaryGroup8 := g8 } := by
  have e : parseLTCFrame (mkLTCBits fu ft su st mu mt hu ht df cf g1 g2 g3 g4 g5 g6 g7 g8) =
      some
        { frame := nibble2 ft * 10 + nibble4 fu
          second := nibble3 st * 10 + nibble4 su
          minute := nibble3 mt * 10 + nibble4 mu
          hour := nibble2 ht * 10 + nibble4 hu
          dropFrame := flagBit df == 1
          colorFrame := flagBit cf == 1
          binaryGroup1 := nibble4 g1
          binaryGroup2 := nibble4 g2
          binaryGroup3 := nibble4 g3
          binaryGroup4 := nibble4 g4
          binaryGroup5 := nibble4 g5
          binaryGroup6 := nibble4 g6
          binaryGroup7 := nibble4 g7
          binaryGroup8 := nibble4 g8 } := rfl
  rw [e, nibble4_eq fu hfu, nibble2_eq ft hft, nibble4_eq su hsu, nibble3_eq st hst,
    nibble4_eq mu hmu, nibble3_eq mt hmt, nibble4_eq hu hhu, nibble2_eq ht hht,
    nibble4_eq g1 h1, nibble4_eq g2 h2, nibble4_eq g3 h3, nibble4_eq g4 h4,
    nibble4_eq g5 h5, nibble4_eq g6 h6, nibble4_eq g7 h7, nibble4_eq g8 h8,
    flagBit_beq df, flagBit_beq cf]

/-- C2 witness: the frame built from timecode 12:34:56:23, both flags set
and user-bit groups 1..8 decodes back to exactly those values. -/
theorem parseLTCFrame_mkLTCBits_witness :
    parseLTCFrame (mkLTCBits 3 2 6 5 4 3 2 1 true true 1 2 3 4 5 6 7 8) =
      some
        { frame := 23
          second := 56
          minute := 34
          hour := 12
          dropFrame := true
          colorFrame := true
          binaryGroup1 := 1
          binaryGroup2 := 2
          binaryGroup3 := 3
          binaryGroup4 := 4
          binaryGroup5 := 5
          binaryGroup6 := 6
          binaryGroup7 := 7
          binaryGroup8 := 8 } :=
  parseLTCFrame_mkLTCBits 3 2 6 5 4 3 2 1 true true 1 2 3 4 5 6 7 8
    (by decide) (by decide) (by decide) (by decide) (by decide) (by decide)
    (by decide) (by decide) (by decide) (by decide) (by decide) (by decide)
    (by decide) (by decide) (by decide) (by decide)

theorem jsRound_natCast (n : ℕ) : jsRound (n : ℚ) = (n : ℤ) := by
  unfold jsRound
  rw [Int.floor_eq_iff]
  constructor
  · push_cast
    linarith
  · push_cast
    linarith

/-- C1: for every frame, the derivation computes
`totalFrames = (hour*3600 + minute*60 + second) * frameRate + frame` with
`frameRate = 29.97` when the drop-frame flag is set and `30` otherwise,
and `timeReferenceSamples = round(totalFrames * 48000 / frameRate)`; in
particular the drop-frame timecode 00:01:00:00 yields 2880000 samples. -/
theorem timeReferenceDerivation :
    (∀ f : SyncLTCFrame,
      calculateTimeReference f =
        jsRound ((((f.hour * 3600 + f.minute * 60 + f.second : ℕ) : ℚ) *
            (if f.dropFrame then (2997/100 : ℚ) else 30) + (f.frame : ℚ)) * 48000 /
          (if f.dropFrame then (2997/100 : ℚ) else 30)))
    ∧ calculateTimeReference ⟨2025, 9, 13, 0, 1, 0, 0, true⟩ = 2880000 := by
  constructor
  · intro f
    unfold calculateTimeReference
    push_cast
    ring_nf
  · have h : calculateTimeReference ⟨2025, 9, 13, 0, 1, 0, 0, true⟩ =
        jsRound ((((0 : ℚ) * 3600 + (1 : ℚ) * 60 + (0 : ℚ)) * (2997/100) + (0 : ℚ)) * 48000 /
          (2997/100)) := by
      unfold calculateTimeReference
      norm_num
    rw [h]
    have h2 : (((0 : ℚ) * 3600 + (1 : ℚ) * 60 + (0 : ℚ)) * (2997/100) + (0 : ℚ)) * 48000 /
        (2997/100) = ((2880000 : ℕ) : ℚ) := by
      norm_num
    rw [h2, jsRound_natCast]
    rfl

theorem length_filter_not {α : Type} (p : α → Bool) (l : List α) :
    (l.filter p).length + (l.filter fun a => !(p a)).length = l.length := by
  induction l with
  | nil => rfl
  | cons a t ih =>
    by_cases h : p a <;> simp [List.filter_cons, h] <;> omega

theorem syncCount_split (r : List ℕ) (h : r.length = 16) :
    syncMatchCount r + syncMismatchCount r = 16 := by
  unfold syncMatchCount syncMismatchCount
  rw [length_filter_not, List.length_zip, h]
  rfl

theorem findSyncFrame_some_spec (bits : List ℕ) :
    ∀ (n i j : ℕ) (w : List ℕ), bits.length - i ≤ n → findSyncFrame bits i = some (j, w) →
      i ≤ j ∧ j + 80 ≤ bits.length ∧ w = jsSlice bits j (j + 80) ∧
        15 ≤ syncMatchCount (jsSlice w 64 80) ∧
        ∀ k, i ≤ k → k < j → syncMatchCount (jsSlice (jsSlice bits k (k + 80)) 64 80) < 15 := by
  intro n
  induction n with
  | zero =>
    intro i j w hn h
    rw [findSyncFrame, if_neg (by omega)] at h
    exact absurd h (by simp)
  | succ n ih =>
    intro i j w hn h
    rw [findSyncFrame] at h
    by_cases hg : i + 80 ≤ bits.length
    · rw [if_pos hg] at h
      by_cases hs : 15 ≤ syncMatchCount (jsSlice (jsSlice bits i (i + 80)) 64 80)
      · rw [if_pos hs] at h
        obtain ⟨rfl, rfl⟩ : i = j ∧ jsSlice bits i (i + 80) = w := by
          have := Option.some.inj h
          exact ⟨congrArg Prod.fst this, congrArg Prod.snd this⟩
        exact ⟨le_refl _, hg, rfl, hs, fun k hk1 hk2 => absurd (lt_of_le_of_lt hk1 hk2) (lt_irrefl _)⟩
      · rw [if_neg hs] at h
        obtain ⟨h1, h2, h3, h4, h5⟩ := ih (i + 1) j w (by omega) h
        refine ⟨by omega, h2, h3, h4, fun k hk1 hk2 => ?_⟩
        rcases Nat.eq_or_lt_of_le hk1 with hk | hk
        · subst hk
          omega
        · exact h5 k hk hk2
    · rw [if_neg hg] at h
      exact absurd h (by simp)

theorem findSyncFrame_none_spec (bits : List ℕ) :
    ∀ (n i : ℕ), bits.length - i ≤ n → findSyncFrame bits i = none →
      ∀ k, i ≤ k → k + 80 ≤ bits.length →
        syncMatchCount (jsSlice (jsSlice bits k (k + 80)) 64 80) < 15 := by
  intro n
  induction n with
  | zero =>
    intro i hn h k hk1 hk2
    omega
  | succ n ih =>
    intro i hn h k hk1 hk2
    rw [findSyncFrame] at h
    by_cases hg : i + 80 ≤ bits.length
    · rw [if_pos hg] at h
      by_cases hs : 15 ≤ syncMatchCount (jsSlice (jsSlice bits i (i + 80)) 64 80)
      · rw [if_pos hs] at h
        exact absurd h (by simp)
      · rw [if_neg hs] at h
        rcases Nat.eq_or_lt_of_le hk1 with hk | hk
        · subst hk
          omega
        · exact ih (i + 1) (by omega) h k hk hk2
    · omega

/-- C3: the Frame Synchronizer accepts an 80-bit window exactly when at
least 15 of its 16 sync bits match the pattern in a free scan (at least 14
of 16 in a position-anchored decode via `parseLTCFrame`), returns the
window at the first qualifying offset, reports no match when no offset
qualifies, and a window with exactly 1 corrupted sync bit still reaches
the threshold while 3 or more corrupted bits cannot. -/
theorem frameSynchronizerSpec :
    (∀ (bits : List ℕ) (j : ℕ) (w : List ℕ), findSyncFrame bits 0 = some (j, w) →
        w = jsSlice bits j (j + 80) ∧ 15 ≤ syncMatchCount (jsSlice w 64 80) ∧
        ∀ k < j, syncMatchCount (jsSlice (jsSlice bits k (k + 80)) 64 80) < 15)
    ∧ (∀ bits : List ℕ, findSyncFrame bits 0 = none →
        ∀ k, k + 80 ≤ bits.length → syncMatchCount (jsSlice (jsSlice bits k (k + 80)) 64 80) < 15)
    ∧ (∀ bits : List ℕ, 80 ≤ bits.length →
        ((parseLTCFrame bits).isSome ↔ 14 ≤ syncMatchCount (jsSlice bits 64 80)))
    ∧ (∀ r : List ℕ, r.length = 16 → syncMismatchCount r = 1 → syncMatchCount r = 15)
    ∧ (∀ r : List ℕ, r.length = 16 → 3 ≤ syncMismatchCount r → syncMatchCount r < 15) := by
  refine ⟨?_, ?_, ?_, ?_, ?_⟩
  · intro bits j w h
    obtain ⟨_, _, h3, h4, h5⟩ := findSyncFrame_some_spec bits bits.length 0 j w (by omega) h
    exact ⟨h3, h4, fun k hk => h5 k (Nat.zero_le _) hk⟩
  · intro bits h k hk
    exact findSyncFrame_none_spec bits bits.length 0 (by omega) h k (Nat.zero_le _) hk
  · intro bits h
    unfold parseLTCFrame
    rw [if_neg (by omega)]
    by_cases hs : syncMatchCount (jsSlice bits 64 80) < 14
    · rw [if_pos hs]
      simp
      omega
    · rw [if_neg hs]
      simp
      omega
  · intro r hr h1
    have := syncCount_split r hr
    omega
  · intro r hr h3
    have := syncCount_split r hr
    omega

/-- C3 witness: the sync region with only its first bit corrupted has
exactly one mismatch, hence matches the pattern in 15 of 16 positions. -/
theorem frameSynchronizerSpec_witness :
    syncMatchCount [1, 0, 1, 1, 1, 1, 1, 1, 1, 1, 1, 1, 1, 1, 0, 1] = 15 :=
  frameSynchronizerSpec.2.2.2.1 [1, 0, 1, 1, 1, 1, 1, 1, 1, 1, 1, 1, 1, 1, 0, 1]
    (by decide) (by decide)

/-- C4: on each polarity change the Bit Recoverer classifies the elapsed
interval: shorter than 1.5 times the half-bit period emits a "1" if a
half-bit is pending and otherwise sets the pending flag; shorter than 1.5
times the full-bit period emits a "1" for any pending half-bit followed by
a "0" and updates samplesPerBit by exponential smoothing; any longer
interval closes a pending half-bit as "1" without emitting a "0" and
without updating samplesPerBit. The smoothing constants 0.99/0.01 (free
scan) and 0.95/0.05 (anchored decode) have the form (1-α)/α. -/
theorem bitRecovererClassification :
    (∀ (wOld wNew : ℚ) (s : DState) (d : Bool), ¬ d = s.currentState →
      ((((s.samplesSinceChange + 1 : ℕ) : ℚ) < s.samplesPerBit * (1/2) * (3/2) →
        manchesterSample wOld wNew s d =
          if s.pendingBit then
            { s with currentState := d, samplesSinceChange := 0,
                     bits := s.bits ++ [1], pendingBit := false }
          else { s with currentState := d, samplesSinceChange := 0, pendingBit := true })
      ∧ (¬ (((s.samplesSinceChange + 1 : ℕ) : ℚ) < s.samplesPerBit * (1/2) * (3/2)) →
          (((s.samplesSinceChange + 1 : ℕ) : ℚ) < s.samplesPerBit * (3/2)) →
        manchesterSample wOld wNew s d =
          { s with currentState := d, samplesSinceChange := 0,
                   bits := (if s.pendingBit then s.bits ++ [1] else s.bits) ++ [0],
                   pendingBit := false,
                   samplesPerBit := s.samplesPerBit * wOld +
                     ((s.samplesSinceChange + 1 : ℕ) : ℚ) * wNew })
      ∧ (¬ (((s.samplesSinceChange + 1 : ℕ) : ℚ) < s.samplesPerBit * (1/2) * (3/2)) →
          ¬ (((s.samplesSinceChange + 1 : ℕ) : ℚ) < s.samplesPerBit * (3/2)) →
        manchesterSample wOld wNew s d =
          if s.pendingBit then
            { s with currentState := d, samplesSinceChange := 0,
                     bits := s.bits ++ [1], pendingBit := false }
          else { s with currentState := d, samplesSinceChange := 0 })))
    ∧ (∀ old elapsed : ℚ,
        old * (99/100) + elapsed * (1/100) = old * (1 - 1/100) + elapsed * (1/100)
        ∧ old * (95/100) + elapsed * (5/100) = old * (1 - 5/100) + elapsed * (5/100)) := by
  constructor
  · intro wOld wNew s d hd
    refine ⟨fun h1 => ?_, fun h1 h2 => ?_, fun h1 h2 => ?_⟩
    · unfold manchesterSample
      rw [if_neg hd, if_pos h1]
    · unfold manchesterSample
      rw [if_neg hd, if_neg h1, if_pos h2]
    · unfold manchesterSample
      rw [if_neg hd, if_neg h1, if_neg h2]
  · intro old elapsed
    constructor <;> ring

/-- C4 witness: a polarity change after 1 sample with a 2-sample bit
period and no pending half-bit is classified short and sets the pending
flag. -/
theorem bitRecovererClassification_witness :
    manchesterSample (99/100) (1/100) ⟨true, 2, 0, false, []⟩ false =
      { currentState := false, samplesPerBit := 2, samplesSinceChange := 0,
        pendingBit := true, bits := [] } := by
  have h := (bitRecovererClassification.1 (99/100) (1/100) ⟨true, 2, 0, false, []⟩ false
    (by simp)).1 (by norm_num)
  simpa using h

theorem manchesterSample_inv (wOld wNew : ℚ) (budget : ℕ) (s : DState) (d : Bool)
    (h : s.bits.length < budget) :
    ((manchesterSample wOld wNew s d).pendingBit = true →
      (manchesterSample wOld wNew s d).bits.length < budget)
    ∧ (manchesterSample wOld wNew s d).bits.length ≤ s.bits.length + 2 := by
  unfold manchesterSample
  by_cases hd : d = s.currentState
  · simp [hd, h]
  · rw [if_neg hd]
    by_cases h1 : ((s.samplesSinceChange + 1 : ℕ) : ℚ) < s.samplesPerBit * (1/2) * (3/2)
    · rw [if_pos h1]
      by_cases hp : s.pendingBit <;> simp [hp, h] <;> omega
    · rw [if_neg h1]
      by_cases h2 : ((s.samplesSinceChange + 1 : ℕ) : ℚ) < s.samplesPerBit * (3/2)
      · rw [if_pos h2]
        by_cases hp : s.pendingBit <;> simp [hp, h] <;> omega
      · rw [if_neg h2]
        by_cases hp : s.pendingBit <;> simp [hp, h] <;> omega

theorem manchesterLoop_inv (wOld wNew : ℚ) (budget : ℕ) :
    ∀ (digital : List Bool) (s : DState),
      (s.pendingBit = true → s.bits.length < budget) → s.bits.length ≤ budget + 1 →
      ((manchesterLoop wOld wNew budget digital s).pendingBit = true →
        (manchesterLoop wOld wNew budget digital s).bits.length < budget)
      ∧ (manchesterLoop wOld wNew budget digital s).bits.length ≤ budget + 1 := by
  intro digital
  induction digital with
  | nil =>
    intro s h1 h2
    exact ⟨h1, h2⟩
  | cons d rest ih =>
    intro s h1 h2
    simp only [manchesterLoop]
    by_cases hb : s.bits.length < budget
    · rw [if_pos hb]
      obtain ⟨k1, k2⟩ := manchesterSample_inv wOld wNew budget s d hb
      exact ih _ k1 (by omega)
    · rw [if_neg hb]
      exact ⟨h1, h2⟩

/-- C5 (amended): the free-scan bit sequence has length at most 1001 (one
more than the 1000-bit budget: a full-bit interval arriving with a pending
half-bit at 999 recovered bits emits two bits), the anchored decode
returns at most 80 bits, and a trailing pending half-bit is flushed as a
"1" only when the bit budget is not exhausted — in the free scan the flush
is unguarded but a pending half-bit at loop exit implies fewer than 1000
bits were recovered. -/
theorem bitRecovererBudget :
    ∀ (digital : List Bool) (sampleRate : ℕ),
      (recoverBitsFree digital sampleRate).length ≤ 1001
      ∧ (detectManchesterBitsFromPosition digital sampleRate).length ≤ 80
      ∧ ((manchesterLoop (99/100) (1/100) 1000 digital.tail
            (initDState digital sampleRate)).pendingBit = true →
          (manchesterLoop (99/100) (1/100) 1000 digital.tail
            (initDState digital sampleRate)).bits.length < 1000) := by
  intro digital sampleRate
  obtain ⟨h1, h2⟩ := manchesterLoop_inv (99/100) (1/100) 1000 digital.tail
    (initDState digital sampleRate) (by simp [initDState]) (by simp [initDState])
  refine ⟨?_, ?_, h1⟩
  · unfold recoverBitsFree
    by_cases hp : (manchesterLoop (99/100) (1/100) 1000 digital.tail
        (initDState digital sampleRate)).pendingBit = true
    · have hlen := h1 hp
      rw [if_pos hp, List.length_append]
      have : ([1] : List ℕ).length = 1 := rfl
      omega
    · rw [if_neg hp]
      omega
  · unfold detectManchesterBitsFromPosition
    simp

theorem manchesterSample_same_lit (wOld wNew : ℚ) (c : Bool) (q : ℚ) (k : ℕ) (p : Bool)
    (b : List ℕ) :
    manchesterSample wOld wNew ⟨c, q, k, p, b⟩ c = ⟨c, q, k + 1, p, b⟩ := by
  unfold manchesterSample
  simp

theorem manchesterSample_flip_short (wOld wNew : ℚ) (c d : Bool) (p : Bool) (b : List ℕ)
    (hd : ¬ d = c) :
    manchesterSample wOld wNew ⟨c, 2, 0, p, b⟩ d =
      if p then ⟨d, 2, 0, false, b ++ [1]⟩ else ⟨d, 2, 0, true, b⟩ := by
  unfold manchesterSample
  rw [if_neg hd]
  rw [if_pos (by push_cast; norm_num)]

theorem manchesterSample_flip_medium (wOld wNew : ℚ) (c d : Bool) (p : Bool) (b : List ℕ)
    (hd : ¬ d = c) :
    manchesterSample wOld wNew ⟨c, 2, 1, p, b⟩ d =
      ⟨d, 2 * wOld + 2 * wNew, 0, false, (if p then b ++ [1] else b) ++ [0]⟩ := by
  unfold manchesterSample
  rw [if_neg hd]
  rw [if_neg (by push_cast; norm_num)]
  rw [if_pos (by push_cast; norm_num)]
  by_cases hp : p <;> simp [hp] <;> norm_num

theorem manchesterLoop_stuck (wOld wNew : ℚ) (budget : ℕ) (l : List Bool) (s : DState)
    (h : ¬ s.bits.length < budget) : manchesterLoop wOld wNew budget l s = s := by
  cases l with
  | nil => rfl
  | cons d rest =>
    simp only [manchesterLoop]
    rw [if_neg h]

theorem manchesterLoop_cons (wOld wNew : ℚ) (budget : ℕ) (d : Bool) (rest : List Bool)
    (s : DState) (h : s.bits.length < budget) :
    manchesterLoop wOld wNew budget (d :: rest) s =
      manchesterLoop wOld wNew budget rest (manchesterSample wOld wNew s d) := by
  simp only [manchesterLoop]
  rw [if_pos h]

theorem manchesterLoop_append (wOld wNew : ℚ) (budget : ℕ) :
    ∀ (l1 l2 : List Bool) (s : DState),
      manchesterLoop wOld wNew budget (l1 ++ l2) s =
        manchesterLoop wOld wNew budget l2 (manchesterLoop wOld wNew budget l1 s) := by
  intro l1
  induction l1 with
  | nil => intro l2 s; rfl
  | cons d rest ih =>
    intro l2 s
    simp only [List.cons_append, manchesterLoop]
    by_cases hb : s.bits.length < budget
    · rw [if_pos hb, if_pos hb]
      exact ih l2 _
    · rw [if_neg hb, if_neg hb, manchesterLoop_stuck wOld wNew budget l2 s hb]

theorem manchesterLoop_flips (wOld wNew : ℚ) :
    ∀ (n : ℕ) (c : Bool) (b : List ℕ), b.length + n ≤ 1000 →
      manchesterLoop wOld wNew 1000 (flips (2 * n) c) ⟨c, 2, 0, false, b⟩ =
        ⟨c, 2, 0, false, b ++ List.replicate n 1⟩ := by
  intro n
  induction n with
  | zero =>
    intro c b h
    simp [flips, manchesterLoop]
  | succ n ih =>
    intro c b h
    have e : 2 * (n + 1) = 2 * n + 1 + 1 := by ring
    rw [e]
    simp only [flips, Bool.not_not]
    rw [manchesterLoop_cons wOld wNew 1000 (!c) _ _ (show b.length < 1000 by omega)]
    rw [manchesterSample_flip_short wOld wNew c (!c) false b (by simp)]
    rw [if_neg Bool.false_ne_true]
    rw [manchesterLoop_cons wOld wNew 1000 c _ _ (show b.length < 1000 by omega)]
    rw [manchesterSample_flip_short wOld wNew (!c) c true b (by simp)]
    rw [if_pos rfl]
    rw [ih c (b ++ [1]) (by simp; omega)]
    simp [List.replicate_succ]

/-- C5 counterexample: on `cexTrace` at 4800 Hz the free-scan bit recovery
produces 1001 bits, exceeding the 1000-bit budget the claim asserts as an
upper bound. -/
theorem bitRecovererBudget_counterexample :
    ¬ (recoverBitsFree cexTrace 4800).length ≤ 1000 := by
  have hinit : initDState cexTrace 4800 = ⟨true, 2, 0, false, []⟩ := by
    unfold initDState cexTrace
    norm_num
  have htail : cexTrace.tail = flips 1998 true ++ [false, false, true] := rfl
  unfold recoverBitsFree
  rw [hinit, htail, manchesterLoop_append]
  rw [show (1998 : ℕ) = 2 * 999 from rfl]
  rw [manchesterLoop_flips (99/100) (1/100) 999 true [] (by simp)]
  simp only [List.nil_append]
  rw [manchesterLoop_cons (99/100) (1/100) 1000 false _ _
    (show (List.replicate 999 1).length < 1000 by norm_num [List.length_replicate])]
  rw [manchesterSample_flip_short (99/100) (1/100) true false false (List.replicate 999 1)
    (by simp)]
  rw [if_neg Bool.false_ne_true]
  rw [manchesterLoop_cons (99/100) (1/100) 1000 false _ _
    (show (List.replicate 999 1).length < 1000 by norm_num [List.length_replicate])]
  rw [manchesterSample_same_lit (99/100) (1/100) false 2 0 true (List.replicate 999 1)]
  rw [manchesterLoop_cons (99/100) (1/100) 1000 true _ _
    (show (List.replicate 999 1).length < 1000 by norm_num [List.length_replicate])]
  rw [manchesterSample_flip_medium (99/100) (1/100) false true true (List.replicate 999 1)
    (by simp)]
  rw [if_pos rfl]
  rw [show ∀ s : DState, manchesterLoop (99/100) (1/100) 1000 [] s = s from fun s => rfl]
  rw [if_neg (show ¬ (DState.pendingBit
    ⟨true, 2 * (99/100) + 2 * (1/100), 0, false, List.replicate 999 1 ++ [1] ++ [0]⟩ = true)
    from Bool.false_ne_true)]
  rw [List.length_append, List.length_append, List.length_replicate,
    List.length_singleton, List.length_singleton]
  omega

theorem rangeMap_getD {β : Type} (f : ℕ → β) (n i : ℕ) (d : β) (h : i < n) :
    ((List.range n).map f).getD i d = f i := by
  rw [List.getD_eq_getElem?_getD, List.getElem?_map, List.getElem?_range h]
  rfl

/-- C6 (amended): the Digitizer returns a polarity trace of length
min(available samples, cap) whose entries are `true` exactly when the
decoded numeric sample value is strictly greater than zero (float decode
at depth 32, signed 16-bit at depth 16); a bit depth other than 32 or 16
does not fail with a FormatError — it falls back to signed 8-bit reads. -/
theorem digitizerSpec :
    ∀ (buf : List ℕ) (dataOffset sampleRate bitsPerSample maxSamples : ℕ),
      bitsPerSample % 8 = 0 → 0 < bitsPerSample →
      (audioToDigital buf dataOffset sampleRate bitsPerSample maxSamples).length =
          min ((buf.length - dataOffset) / (bitsPerSample / 8)) maxSamples
      ∧ (∀ i, i < min ((buf.length - dataOffset) / (bitsPerSample / 8)) maxSamples →
          (audioToDigital buf dataOffset sampleRate bitsPerSample maxSamples).getD i false =
            sampleGtZero buf bitsPerSample (dataOffset + i * (bitsPerSample / 8)))
      ∧ (∀ off, sampleGtZero buf 32 off = f32GtZero (readFloatLE buf off))
      ∧ (∀ off, sampleGtZero buf 16 off = decide (0 < readInt16LE buf off))
      ∧ (∀ off, bitsPerSample ≠ 32 → bitsPerSample ≠ 16 →
          sampleGtZero buf bitsPerSample off = decide (0 < readInt8 buf off)) := by
  intro buf dataOffset sampleRate bitsPerSample maxSamples hmod hpos
  refine ⟨?_, ?_, ?_, ?_, ?_⟩
  · unfold audioToDigital
    simp
  · intro i hi
    unfold audioToDigital
    exact rangeMap_getD _ _ _ _ hi
  · intro off
    rfl
  · intro off
    rfl
  · intro off h32 h16
    unfold sampleGtZero
    rw [if_neg h32, if_neg h16]

/-- C6 witness: an 8-bit buffer of two samples produces a trace of length
min(2, cap). -/
theorem digitizerSpec_witness :
    (audioToDigital [1, 200] 0 48000 8 10).length = min 2 10 :=
  (digitizerSpec [1, 200] 0 48000 8 10 (by decide) (by decide)).1

/-- C6 counterexample: at the unsupported bit depth 24 the source
Digitizer still returns a polarity trace (decoding bytes as signed 8-bit
values), where the spec's contract demands a FormatError failure. -/
theorem digitizerSpec_counterexample :
    audioToDigital [200, 1, 2, 100, 5, 6] 0 48000 24 480000 = [false, true]
    ∧ audioToDigitalSpec [200, 1, 2, 100, 5, 6] 0 48000 24 480000 =
        Except.error FormatError.unsupportedBitDepth := by
  constructor
  · decide
  · rfl

/-- C7: the Validator/Corrector replaces hour by hour mod 24 with a
reported correction when hour is 24 or more; reports corrections for
minute or second of 60 or more while leaving the stored values unmodified;
and discards the frame's date in favour of the supplied wall-clock date,
with a reported correction, exactly when month is outside [1,12] or day is
outside [1,31]. All corrections are non-fatal: a frame is returned in
every case. -/
theorem validatorCorrectorSpec :
    ∀ (yy mon day h m s fr : ℕ) (df : Bool) (nowY nowM nowD : ℕ),
      (parseLTCFrameFields yy mon day h m s fr df nowY nowM nowD).1.minute = m
      ∧ (parseLTCFrameFields yy mon day h m s fr df nowY nowM nowD).1.second = s
      ∧ (24 ≤ h →
          (parseLTCFrameFields yy mon day h m s fr df nowY nowM nowD).1.hour = h % 24
          ∧ TCCorrection.invalidHour ∈ (parseLTCFrameFields yy mon day h m s fr df nowY nowM nowD).2)
      ∧ (h < 24 →
          (parseLTCFrameFields yy mon day h m s fr df nowY nowM nowD).1.hour = h
          ∧ TCCorrection.invalidHour ∉ (parseLTCFrameFields yy mon day h m s fr df nowY nowM nowD).2)
      ∧ (60 ≤ m ↔
          TCCorrection.invalidMinute ∈ (parseLTCFrameFields yy mon day h m s fr df nowY nowM nowD).2)
      ∧ (60 ≤ s ↔
          TCCorrection.invalidSecond ∈ (parseLTCFrameFields yy mon day h m s fr df nowY nowM nowD).2)
      ∧ ((1 ≤ mon ∧ mon ≤ 12 ∧ 1 ≤ day ∧ day ≤ 31) →
          (parseLTCFrameFields yy mon day h m s fr df nowY nowM nowD).1.year = 2000 + yy
          ∧ (parseLTCFrameFields yy mon day h m s fr df nowY nowM nowD).1.month = mon
          ∧ (parseLTCFrameFields yy mon day h m s fr df nowY nowM nowD).1.day = day
          ∧ TCCorrection.invalidDate ∉ (parseLTCFrameFields yy mon day h m s fr df nowY nowM nowD).2)
      ∧ (¬ (1 ≤ mon ∧ mon ≤ 12 ∧ 1 ≤ day ∧ day ≤ 31) →
          (parseLTCFrameFields yy mon day h m s fr df nowY nowM nowD).1.year = nowY
          ∧ (parseLTCFrameFields yy mon day h m s fr df nowY nowM nowD).1.month = nowM
          ∧ (parseLTCFrameFields yy mon day h m s fr df nowY nowM nowD).1.day = nowD
          ∧ TCCorrection.invalidDate ∈ (parseLTCFrameFields yy mon day h m s fr df nowY nowM nowD).2) := by
  intro yy mon day h m s fr df nowY nowM nowD
  by_cases hdate : 1 ≤ mon ∧ mon ≤ 12 ∧ 1 ≤ day ∧ day ≤ 31 <;>
    by_cases hh : 24 ≤ h <;>
    by_cases hm : 60 ≤ m <;>
    by_cases hs : 60 ≤ s <;>
    simp [parseLTCFrameFields, hdate, hh, hm, hs] <;>
    omega

/-- C7 witness: hour 25 is corrected to 1 with a reported correction. -/
theorem validatorCorrectorSpec_witness :
    (parseLTCFrameFields 25 9 13 25 61 61 0 false 2026 10 11).1.hour = 1
    ∧ TCCorrection.invalidHour ∈ (parseLTCFrameFields 25 9 13 25 61 61 0 false 2026 10 11).2 := by
  have h := (validatorCorrectorSpec 25 9 13 25 61 61 0 false 2026 10 11).2.2.1 (by omega)
  simpa using h

/-- C8 (amended): the two century policies are attributed to the opposite
paths from the claim: the audio-decoded display path expands the two-digit
year with the "<50 → 2000s, ≥50 → 1900s" heuristic, while the ltcdump
text-form path expands it by prefixing "20" with no rollover heuristic. -/
theorem yearPolicyByPath :
    (∀ (f : LTCFrame) (y mo dy : ℕ), displayedDate f = some (y, mo, dy) →
        y = (if twoDigit (userBitsDigits f) 0 < 50 then 2000 + twoDigit (userBitsDigits f) 0
          else 1900 + twoDigit (userBitsDigits f) 0))
    ∧ (∀ (yy mon day h m s fr : ℕ) (df : Bool) (nY nM nD : ℕ),
        1 ≤ mon → mon ≤ 12 → 1 ≤ day → day ≤ 31 →
        (parseLTCFrameFields yy mon day h m s fr df nY nM nD).1.year = 2000 + yy) := by
  constructor
  · intro f y mo dy hsome
    simp only [displayedDate] at hsome
    by_cases h8 : (userBitsDigits f).length = 8
    · rw [if_pos h8] at hsome
      by_cases hok : 1 ≤ twoDigit (userBitsDigits f) 2 ∧ twoDigit (userBitsDigits f) 2 ≤ 12 ∧
          1 ≤ twoDigit (userBitsDigits f) 4 ∧ twoDigit (userBitsDigits f) 4 ≤ 31
      · rw [if_pos hok] at hsome
        have he := Option.some.inj hsome
        exact (congrArg Prod.fst he).symm
      · rw [if_neg hok] at hsome
        exact absurd hsome (by simp)
    · rw [if_neg h8] at hsome
      exact absurd hsome (by simp)
  · intro yy mon day h m s fr df nY nM nD h1 h2 h3 h4
    simp [parseLTCFrameFields, h1, h2, h3, h4]

/-- C8 witness: an in-range text-path date with two-digit year 05 expands
to 2005. -/
theorem yearPolicyByPath_witness :
    (parseLTCFrameFields 5 1 1 0 0 0 0 false 1 1 1).1.year = 2000 + 5 :=
  yearPolicyByPath.2 5 1 1 0 0 0 0 false 1 1 1 (by decide) (by decide) (by decide) (by decide)

/-- C8 counterexample: for user bits encoding year digits 99 the
audio-decoded display path produces 1999 (heuristic), not the 2099 the
claim's prefix-"20" rule would give, while the text path produces 2099,
not 1999. -/
theorem yearPolicyByPath_counterexample :
    displayedDate ⟨0, 0, 0, 0, false, false, 0, 0, 1, 0, 1, 0, 9, 9⟩ = some (1999, 1, 1)
    ∧ (parseLTCFrameFields 99 1 1 0 0 0 0 false 7 7 7).1.year = 2099
    ∧ (1999 : ℕ) ≠ 2000 + 99
    ∧ (2099 : ℕ) ≠ (if (99 : ℕ) < 50 then 2000 + 99 else 1900 + 99) := by
  refine ⟨by decide, by decide, by decide, by decide⟩

theorem decRepr_digit : ∀ n < 10, decRepr n = [n] := by decide

/-- C9 (amended): concatenating the eight user-bit groups from group 8
down to group 1 as decimal digits yields a string of exactly 8 digits,
interpreted as YYMMDDXX, precisely when every group is at most 9; a group
of 10 or more contributes two decimal digits. -/
theorem userBitsFormat :
    ∀ f : LTCFrame,
      f.binaryGroup1 ≤ 9 → f.binaryGroup2 ≤ 9 → f.binaryGroup3 ≤ 9 → f.binaryGroup4 ≤ 9 →
      f.binaryGroup5 ≤ 9 → f.binaryGroup6 ≤ 9 → f.binaryGroup7 ≤ 9 → f.binaryGroup8 ≤ 9 →
      (userBitsDigits f).length = 8
      ∧ twoDigit (userBitsDigits f) 0 = 10 * f.binaryGroup8 + f.binaryGroup7
      ∧ twoDigit (userBitsDigits f) 2 = 10 * f.binaryGroup6 + f.binaryGroup5
      ∧ twoDigit (userBitsDigits f) 4 = 10 * f.binaryGroup4 + f.binaryGroup3
      ∧ twoDigit (userBitsDigits f) 6 = 10 * f.binaryGroup2 + f.binaryGroup1 := by
  intro f h1 h2 h3 h4 h5 h6 h7 h8
  have e : userBitsDigits f =
      [f.binaryGroup8, f.binaryGroup7, f.binaryGroup6, f.binaryGroup5,
       f.binaryGroup4, f.binaryGroup3, f.binaryGroup2, f.binaryGroup1] := by
    unfold userBitsDigits
    rw [decRepr_digit _ (by omega), decRepr_digit _ (by omega), decRepr_digit _ (by omega),
      decRepr_digit _ (by omega), decRepr_digit _ (by omega), decRepr_digit _ (by omega),
      decRepr_digit _ (by omega), decRepr_digit _ (by omega)]
    rfl
  rw [e]
  exact ⟨rfl, rfl, rfl, rfl, rfl⟩

/-- C9 witness: a decoded frame whose groups are the digits 8 7 6 5 4 3 2
1 concatenates to the 8-digit string 12345678 read as year 12, month 34,
day 56, extra 78. -/
theorem userBitsFormat_witness :
    (userBitsDigits ⟨0, 0, 0, 0, false, false, 8, 7, 6, 5, 4, 3, 2, 1⟩).length = 8
    ∧ twoDigit (userBitsDigits ⟨0, 0, 0, 0, false, false, 8, 7, 6, 5, 4, 3, 2, 1⟩) 0 = 12 := by
  have h := userBitsFormat ⟨0, 0, 0, 0, false, false, 8, 7, 6, 5, 4, 3, 2, 1⟩
    (by decide) (by decide) (by decide) (by decide) (by decide) (by decide) (by decide) (by decide)
  exact ⟨h.1, h.2.1⟩

/-- C9 counterexample: a frame actually produced by the decoder, with
user-bit group 8 equal to 15, concatenates to 9 decimal digits, not 8. -/
theorem userBitsFormat_counterexample :
    ((parseLTCFrame (mkLTCBits 0 0 0 0 0 0 0 0 false false 0 0 0 0 0 0 0 15)).map
      fun fr => (userBitsDigits fr).length) = some 9 := by
  decide

/-- C5 witness: the free-scan bound applied to a concrete two-sample
trace. -/
theorem bitRecovererBudget_witness :
    (recoverBitsFree [true, false] 4800).length ≤ 1001 :=
  (bitRecovererBudget [true, false] 4800).1
